import Mathlib

/-!
Shallow embedding of the pitch-detection / note-mapping core of the
music_hub repository (source file: the audio utility module exporting
getNoteInfo and autoCorrelate).

Conventions of the embedding:
* A Uint8Array sample buffer is a `List ℕ` (a hypothesis `b < 256` is added
  where a claim needs the byte range).
* JavaScript float arithmetic on the autocorrelation path is embedded as
  exact rational arithmetic (`ℚ`); the logarithm-based decibel gate and the
  note mapping use `ℝ` with Mathlib logarithms.
* The special values of JavaScript division and of non-finite inputs are
  embedded explicitly: `JsNum` for the result of `autoCorrelate`
  (`sampleRate / mp` can divide by zero or by -1), and `JsR` for the input
  of `getNoteInfo` (the guard `!freq || freq < 20` sees NaN and infinities).
-/

/- ======================= NoteMapper (getNoteInfo) ======================= -/

section NoteMapper

open Classical

structure NoteInfo where
  note : String
  solfege : String
  cents : ℝ

def noteNames : List String :=
  ["C", "C#", "D", "D#", "E", "F"] ++ ["F#", "G", "G#", "A", "A#", "B"]

def solfegeNames : List String :=
  ["Do", "Di", "Re", "Ri", "Mi", "Fa", "Fi", "Sol", "Si", "La", "Li", "Ti"]

/-- Source: `const n = 12 * Math.log2(freq / 440) + 69;`. -/
noncomputable def noteN (freq : ℝ) : ℝ := 12 * Real.logb 2 (freq / 440) + 69

/-- Source: `const midi = Math.round(n);`.  Mathlib `round` is
`fun x => ⌊x + 1/2⌋`, which agrees with JS `Math.round` (half rounds up,
i.e. toward positive infinity) at every real argument. -/
noncomputable def noteMidi (freq : ℝ) : ℤ := round (noteN freq)

/-- Source: `const idx = midi % 12;`.  The JS `%` operator truncates toward
zero (the remainder takes the sign of the dividend), which is `Int.tmod`. -/
def noteIdx (midi : ℤ) : ℤ := Int.tmod midi 12

/-- Source: `const octave = Math.floor(midi / 12) - 1;`.  `Math.floor` of a
real quotient is floor division, which is `Int.fdiv`. -/
def octaveOf (midi : ℤ) : ℤ := Int.fdiv midi 12 - 1

/-- Source: `getNoteInfo` restricted to finite (real) inputs.  The JS guard
`!freq || freq < 20` is `freq = 0 ∨ freq < 20` on the reals (`!freq` is
also true for NaN, which is handled by the `JsR` model below).  An
out-of-range table read in JS yields `undefined`; it is embedded as the
`Option.getD` fallback `"undefined"` (proved unreachable for inputs
passing the guard). -/
noncomputable def getNoteInfo (freq : ℝ) : NoteInfo :=
  if freq = 0 ∨ freq < 20 then { note := "--", solfege := "--", cents := 0 }
  else
    { note := (noteNames.get? (noteIdx (noteMidi freq)).toNat).getD "undefined"
        ++ toString (octaveOf (noteMidi freq)),
      solfege := (solfegeNames.get? (noteIdx (noteMidi freq)).toNat).getD "undefined",
      cents := (noteN freq - (noteMidi freq : ℝ)) * 100 }

/- JS float model for the non-finite inputs of getNoteInfo. -/

/-- JavaScript number restricted to what this code can produce: a finite
real, an infinity, or NaN. -/
inductive JsR where
  | fin (x : ℝ)
  | posInf
  | negInf
  | nan

/-- Truthiness test of `!freq`: false exactly for 0 and NaN. -/
def jsFalsy : JsR → Prop
  | .fin x => x = 0
  | .nan => True
  | _ => False

/-- JS comparison `freq < 20`: NaN compares false, -Infinity compares true. -/
def jsLt20 : JsR → Prop
  | .fin x => x < 20
  | .negInf => True
  | _ => False

/-- JS `freq / 440` (division by a positive finite constant). -/
noncomputable def jsDiv440 : JsR → JsR
  | .fin x => .fin (x / 440)
  | .posInf => .posInf
  | .negInf => .negInf
  | .nan => .nan

/-- JS `Math.log2`: log2(+inf) = +inf, log2(0) = -inf, log2(x<0) = NaN. -/
noncomputable def jsLog2 : JsR → JsR
  | .fin x => if 0 < x then .fin (Real.logb 2 x) else if x = 0 then .negInf else .nan
  | .posInf => .posInf
  | _ => .nan

/-- JS `12 * y + 69` (affine map with positive slope). -/
noncomputable def jsLin : JsR → JsR
  | .fin y => .fin (12 * y + 69)
  | .posInf => .posInf
  | .negInf => .negInf
  | .nan => .nan

/-- JS `Math.round`: the infinities and NaN are fixed points. -/
noncomputable def jsRound : JsR → JsR
  | .fin x => .fin ((round x : ℤ) : ℝ)
  | .posInf => .posInf
  | .negInf => .negInf
  | .nan => .nan

/-- JS subtraction with IEEE-754 special values; `inf - inf = NaN`. -/
noncomputable def jsSub : JsR → JsR → JsR
  | .fin a, .fin b => .fin (a - b)
  | .fin _, .posInf => .negInf
  | .fin _, .negInf => .posInf
  | .posInf, .fin _ => .posInf
  | .posInf, .posInf => .nan
  | .posInf, .negInf => .posInf
  | .negInf, .fin _ => .negInf
  | .negInf, .posInf => .negInf
  | .negInf, .negInf => .nan
  | _, _ => .nan

/-- JS `diff * 100` (multiplication by a positive finite constant). -/
noncomputable def jsMul100 : JsR → JsR
  | .fin x => .fin (x * 100)
  | .posInf => .posInf
  | .negInf => .negInf
  | .nan => .nan

/-- The cents field computed by `getNoteInfo` under full JS number
semantics: `(n - Math.round(n)) * 100` with `n = 12 * Math.log2(freq/440)
+ 69`, and 0 on the sentinel path `!freq || freq < 20`. -/
noncomputable def getNoteInfoCentsJs (freq : JsR) : JsR :=
  if jsFalsy freq ∨ jsLt20 freq then .fin 0
  else
    let n := jsLin (jsLog2 (jsDiv440 freq))
    jsMul100 (jsSub n (jsRound n))

end NoteMapper

/- ====================== PitchEstimator (autoCorrelate) ====================== -/

/-- Centered fraction of one raw byte: `(b - 128) / 128`. -/
def centered (b : ℕ) : ℚ := ((b : ℚ) - 128) / 128

/-- Source accumulator `rms` (a sum of squares, despite the name):
`rms += val * val` over the buffer. -/
def sumSq (buf : List ℕ) : ℚ := (buf.map (fun b => centered b * centered b)).sum

/-- Mean square `rms / buf.length` (the JS value under the square root).
For the empty buffer JS gets NaN here; that case is carried by the
`buf ≠ []` conjunct of `gated` instead. -/
def msq (buf : List ℕ) : ℚ := sumSq buf / buf.length

/-- Source: `db = 20 * Math.log10(Math.sqrt(rms / buf.length)) + 100`, as a
real number; meaningful when `msq buf > 0` (the `msq = 0` case gives
`-Infinity` in JS and is carried by a disjunct of `gated`). -/
noncomputable def db (buf : List ℕ) : ℝ :=
  20 * Real.logb 10 (Real.sqrt ((msq buf : ℚ) : ℝ)) + 100

/-- The loudness gate `db < gate` under JS semantics: the empty buffer gives
`db = NaN` and the comparison is false; an all-silent buffer gives
`db = -Infinity` and the comparison is true for every real gate; otherwise
the real comparison decides. -/
def gated (buf : List ℕ) (gate : ℝ) : Prop :=
  buf ≠ [] ∧ (msq buf = 0 ∨ db buf < gate)

/-- Number of iterations of a JS loop bounded by `i < len / 2` (float
division): `(len + 1) / 2` in natural division. -/
def halfLen (len : ℕ) : ℕ := (len + 1) / 2

/-- Source: first loop of the edge trim; `r1` is the first index in the
first half whose centered magnitude is below 0.2, defaulting to 0. -/
def r1 (buf : List ℕ) : ℕ :=
  ((List.range (halfLen buf.length)).find?
    (fun i => decide (|centered (buf.getD i 0)| < 1/5))).getD 0

/-- Source: second loop of the edge trim; scanning `i = 1, 2, ...` over the
last half, `r2 = buf.length - i` for the first hit, defaulting to
`buf.length - 1` (an integer: it is `-1` for the empty buffer). -/
def r2 (buf : List ℕ) : ℤ :=
  match (List.range' 1 (halfLen buf.length - 1)).find?
      (fun i => decide (|centered (buf.getD (buf.length - i) 0)| < 1/5)) with
  | some i => (buf.length : ℤ) - i
  | none => (buf.length : ℤ) - 1

/-- Source: `const b2 = buf.slice(r1, r2);` (half-open, clamped below). -/
def trim (buf : List ℕ) : List ℕ := (buf.take (r2 buf).toNat).drop (r1 buf)

/-- Unnormalized autocorrelation at one lag:
`c[lag] = Σ_{j=0}^{n-lag-1} x[j] * x[j+lag]`. -/
def acf (xs : List ℚ) (lag : ℕ) : ℚ :=
  ((List.range (xs.length - lag)).map (fun j => xs.getD j 0 * xs.getD (j + lag) 0)).sum

/-- The full autocorrelation array `c` of the source. -/
def acfList (xs : List ℚ) : List ℚ := (List.range xs.length).map (acf xs)

/-- Source: `let d = 0; while (c[d] > c[d + 1]) d++;`.  Reading past the end
of the array yields `undefined` in JS and the strict comparison is then
false, so the loop stops no later than the last index. -/
def descendAux : List ℚ → ℕ
  | a :: b :: rest => if b < a then descendAux (b :: rest) + 1 else 0
  | _ => 0

/-- Result type of `autoCorrelate`: the JS value of `sampleRate / mp`. -/
inductive JsNum where
  | fin (q : ℚ)
  | posInf
  | negInf
  | nan
  deriving Repr, DecidableEq

/-- JS division of a number by an integer (the final `sampleRate / mp`):
division by zero yields a signed infinity or NaN. -/
def jsDiv (a : ℚ) (b : ℤ) : JsNum :=
  if b = 0 then (if 0 < a then .posInf else if a < 0 then .negInf else .nan)
  else .fin (a / b)

/-- One step of the peak scan: `if (c[i] > mx) { mx = c[i]; mp = i; }`. -/
def peakStep (cl : List ℚ) (p : ℚ × ℤ) (i : ℕ) : ℚ × ℤ :=
  if p.1 < cl.getD i 0 then (cl.getD i 0, (i : ℤ)) else p

/-- Everything `autoCorrelate` does after the loudness gate: edge trim,
autocorrelation, descent, peak scan starting from `(mx, mp) = (-1, -1)`,
and the final division `sampleRate / mp`. -/
def estimateBody (buf : List ℕ) (sr : ℚ) : JsNum :=
  let b2 := trim buf
  let xs := b2.map centered
  let sz := xs.length
  let cl := acfList xs
  let d := descendAux cl
  let mp := ((List.range' d (sz - d)).foldl (peakStep cl) (-1, -1)).2
  jsDiv sr mp

/-- Full contract of `autoCorrelate buf sampleRate gate`: return `-1` when
the loudness gate fires, the body result otherwise.  Stated as a relation
because the gate compares a real logarithm. -/
def estimateRel (buf : List ℕ) (sr : ℚ) (gate : ℝ) (res : JsNum) : Prop :=
  (gated buf gate → res = .fin (-1)) ∧ (¬ gated buf gate → res = estimateBody buf sr)

/- ============================ Helper lemmas ============================ -/

lemma centered_mem (b : ℕ) (hb : b < 256) : -1 ≤ centered b ∧ centered b ≤ 127/128 := by
  unfold centered
  have h0 : (0:ℚ) ≤ (b:ℚ) := Nat.cast_nonneg b
  have h255 : (b:ℚ) ≤ 255 := by exact_mod_cast (by omega : b ≤ 255)
  constructor
  · rw [le_div_iff₀ (by norm_num : (0:ℚ) < 128)]
    linarith
  · rw [div_le_div_iff₀ (by norm_num : (0:ℚ) < 128) (by norm_num : (0:ℚ) < 128)]
    linarith

lemma mul_gt_neg_one {a b : ℚ} (ha1 : -1 ≤ a) (ha2 : a ≤ 127/128)
    (hb1 : -1 ≤ b) (hb2 : b ≤ 127/128) : -1 < a * b := by
  nlinarith [mul_nonneg (by linarith : (0:ℚ) ≤ a + 1) (by linarith : (0:ℚ) ≤ b + 1),
             mul_nonneg (by linarith : (0:ℚ) ≤ 127/128 - a) (by linarith : (0:ℚ) ≤ b + 1),
             mul_nonneg (by linarith : (0:ℚ) ≤ a + 1) (by linarith : (0:ℚ) ≤ 127/128 - b),
             mul_nonneg (by linarith : (0:ℚ) ≤ 127/128 - a) (by linarith : (0:ℚ) ≤ 127/128 - b)]

lemma descendAux_le : ∀ l : List ℚ, descendAux l ≤ l.length - 1
  | [] => by simp [descendAux]
  | [_] => by simp [descendAux]
  | a :: b :: rest => by
    unfold descendAux
    by_cases h : b < a
    · have := descendAux_le (b :: rest)
      simp only [if_pos h, List.length_cons]
      simp only [List.length_cons] at this
      omega
    · simp [if_neg h]

lemma descendAux_decreasing : ∀ (l : List ℚ) (k : ℕ), k < descendAux l →
    k + 1 < l.length ∧ l.getD (k+1) 0 < l.getD k 0
  | [], k, hk => by simp [descendAux] at hk
  | [_], k, hk => by simp [descendAux] at hk
  | a :: b :: rest, k, hk => by
    unfold descendAux at hk
    by_cases h : b < a
    · rw [if_pos h] at hk
      match k with
      | 0 =>
        refine ⟨by simp [List.length_cons], ?_⟩
        simpa using h
      | k' + 1 =>
        have := descendAux_decreasing (b :: rest) k' (by omega)
        refine ⟨?_, ?_⟩
        · simp only [List.length_cons] at this ⊢
          omega
        · simpa using this.2
    · rw [if_neg h] at hk
      omega

lemma descendAux_stop : ∀ l : List ℚ,
    ¬ (descendAux l + 1 < l.length ∧
        l.getD (descendAux l + 1) 0 < l.getD (descendAux l) 0)
  | [] => by simp [descendAux]
  | [_] => by simp [descendAux]
  | a :: b :: rest => by
    unfold descendAux
    by_cases h : b < a
    · rw [if_pos h]
      have := descendAux_stop (b :: rest)
      rintro ⟨h1, h2⟩
      apply this
      refine ⟨?_, ?_⟩
      · simp only [List.length_cons] at h1 ⊢
        omega
      · simpa using h2
    · rw [if_neg h]
      rintro ⟨_, h2⟩
      exact h (by simpa using h2)

lemma peakFold_const (cl : List ℚ) : ∀ (k d : ℕ) (mx : ℚ) (mp : ℤ),
    (∀ i, d ≤ i → i < d + k → cl.getD i 0 ≤ mx) →
    (List.range' d k).foldl (peakStep cl) (mx, mp) = (mx, mp)
  | 0, _, _, _, _ => rfl
  | k + 1, d, mx, mp, h => by
    rw [List.range'_succ, List.foldl_cons]
    have hd : cl.getD d 0 ≤ mx := h d le_rfl (by omega)
    rw [show peakStep cl (mx, mp) d = (mx, mp) from if_neg (not_lt.mpr hd)]
    exact peakFold_const cl k (d + 1) mx mp (fun i h1 h2 => h i (by omega) (by omega))

lemma peakFold_max (cl : List ℚ) : ∀ (k d : ℕ) (mx : ℚ) (mp : ℤ),
    (∃ i, d ≤ i ∧ i < d + k ∧ mx < cl.getD i 0) →
    ∃ j, d ≤ j ∧ j < d + k ∧
      (List.range' d k).foldl (peakStep cl) (mx, mp) = (cl.getD j 0, (j : ℤ)) ∧
      mx < cl.getD j 0 ∧
      (∀ i, d ≤ i → i < d + k → cl.getD i 0 ≤ cl.getD j 0) ∧
      (∀ i, d ≤ i → i < j → cl.getD i 0 < cl.getD j 0)
  | 0, d, mx, mp, hex => by
    obtain ⟨i, h1, h2, _⟩ := hex
    omega
  | k + 1, d, mx, mp, hex => by
    rw [List.range'_succ, List.foldl_cons]
    by_cases hd : mx < cl.getD d 0
    · rw [show peakStep cl (mx, mp) d = (cl.getD d 0, (d : ℤ)) from if_pos hd]
      by_cases hrest : ∃ i, d + 1 ≤ i ∧ i < (d + 1) + k ∧ cl.getD d 0 < cl.getD i 0
      · obtain ⟨j, hj1, hj2, hj3, hj4, hj5, hj6⟩ :=
          peakFold_max cl k (d + 1) (cl.getD d 0) (d : ℤ) hrest
        refine ⟨j, by omega, by omega, hj3, lt_trans hd hj4, ?_, ?_⟩
        · intro i hi1 hi2
          rcases Nat.eq_or_lt_of_le hi1 with rfl | hi1'
          · exact le_of_lt hj4
          · exact hj5 i (by omega) (by omega)
        · intro i hi1 hi2
          rcases Nat.eq_or_lt_of_le hi1 with rfl | hi1'
          · exact hj4
          · exact hj6 i (by omega) hi2
      · push_neg at hrest
        rw [peakFold_const cl k (d + 1) (cl.getD d 0) (d : ℤ) hrest]
        refine ⟨d, le_rfl, by omega, rfl, hd, ?_, fun i hi1 hi2 => by omega⟩
        intro i hi1 hi2
        rcases Nat.eq_or_lt_of_le hi1 with rfl | hi1'
        · exact le_rfl
        · exact hrest i (by omega) (by omega)
    · rw [show peakStep cl (mx, mp) d = (mx, mp) from if_neg hd]
      obtain ⟨i, hi1, hi2, hi3⟩ := hex
      have hine : d + 1 ≤ i := by
        rcases Nat.eq_or_lt_of_le hi1 with rfl | h
        · exact absurd hi3 hd
        · omega
      obtain ⟨j, hj1, hj2, hj3, hj4, hj5, hj6⟩ :=
        peakFold_max cl k (d + 1) mx mp ⟨i, hine, by omega, hi3⟩
      refine ⟨j, by omega, by omega, hj3, hj4, ?_, ?_⟩
      · intro i' hi1' hi2'
        rcases Nat.eq_or_lt_of_le hi1' with rfl | h
        · exact le_of_lt (lt_of_le_of_lt (not_lt.mp hd) hj4)
        · exact hj5 i' (by omega) (by omega)
      · intro i' hi1' hi2'
        rcases Nat.eq_or_lt_of_le hi1' with rfl | h
        · exact lt_of_le_of_lt (not_lt.mp hd) hj4
        · exact hj6 i' (by omega) hi2'

lemma acfList_length (xs : List ℚ) : (acfList xs).length = xs.length := by
  simp [acfList]

lemma acfList_getD (xs : List ℚ) (i : ℕ) (h : i < xs.length) :
    (acfList xs).getD i 0 = acf xs i := by
  unfold acfList
  rw [List.getD_eq_getElem?_getD]
  simp [List.getElem?_map, List.getElem?_range h]

lemma acf_last (xs : List ℚ) (h1 : 1 ≤ xs.length) :
    acf xs (xs.length - 1) = xs.getD 0 0 * xs.getD (xs.length - 1) 0 := by
  unfold acf
  rw [show xs.length - (xs.length - 1) = 1 from by omega]
  rw [show List.range 1 = [0] from rfl]
  simp [List.getD_eq_getElem?_getD]

lemma msq_all_silence (buf : List ℕ) (hall : ∀ b ∈ buf, b = 128) : msq buf = 0 := by
  have h : sumSq buf = 0 := by
    unfold sumSq
    apply List.sum_eq_zero
    intro x hx
    obtain ⟨b, hb, rfl⟩ := List.mem_map.mp hx
    rw [hall b hb]
    norm_num [centered]
  unfold msq
  rw [h, zero_div]

lemma decide_c255 : decide (|(127:ℚ) / 128| < 1 / 5) = false :=
  decide_eq_false (by rw [abs_of_nonneg (by norm_num : (0:ℚ) ≤ 127/128)]; norm_num)

lemma decide_c128 : decide (|((128:ℚ) - 128) / 128| < 1 / 5) = true :=
  decide_eq_true (by norm_num)

lemma trim_loud_eval : trim [255, 128, 128, 128] = [128, 128] := by
  norm_num [trim, r1, r2, halfLen, List.find?, List.getD, List.range', List.range_succ,
    centered, decide_c255, decide_c128, List.take, List.tail, Int.toNat]

lemma sqrt_msq_loud : Real.sqrt ((msq [255, 128, 128, 128] : ℚ) : ℝ) = 127/256 := by
  rw [show msq [255, 128, 128, 128] = 16129/65536 from by norm_num [msq, sumSq, centered]]
  rw [show (((16129/65536 : ℚ) : ℝ)) = (127/256 : ℝ)^2 from by push_cast; norm_num]
  exact Real.sqrt_sq (by norm_num)

lemma logb_127_256 : (-1 : ℝ) ≤ Real.logb 10 (127/256) := by
  have h1 : Real.logb 10 ((1:ℝ)/10) ≤ Real.logb 10 (127/256) :=
    Real.logb_le_logb_of_le (by norm_num) (by norm_num) (by norm_num)
  have h2 : Real.logb 10 ((1:ℝ)/10) = -1 := by
    rw [show (1:ℝ)/10 = (10:ℝ)⁻¹ from by norm_num, Real.logb_inv,
      Real.logb_self_eq_one (by norm_num)]
  linarith

lemma not_gated_loud : ¬ gated [255, 128, 128, 128] 30 := by
  rintro ⟨-, h | h⟩
  · norm_num [msq, sumSq, centered] at h
  · unfold db at h
    rw [sqrt_msq_loud] at h
    have := logb_127_256
    linarith

lemma estimateBody_loud : estimateBody [255, 128, 128, 128] 44100 = .posInf := by
  norm_num [estimateBody, trim, r1, r2, halfLen, List.find?, List.getD, List.range',
    List.range_succ, centered, decide_c255, decide_c128, List.take, List.tail, Int.toNat,
    acfList, acf, descendAux, peakStep, jsDiv]

lemma estimateBody_empty : estimateBody [] 44100 = .fin (-44100) := by
  norm_num [estimateBody, trim, r1, r2, halfLen, List.find?, List.getD, List.range',
    List.range_succ, centered, List.take, Int.toNat,
    acfList, acf, descendAux, peakStep, jsDiv]

/- ============================ Claim theorems ============================ -/

/-- C10: the descent loop `while (c[d] > c[d+1]) d++` of autoCorrelate always
halts: on the autocorrelation array of the trimmed buffer the stopping index
is at most `sz - 1` (so it is 0 when the array is empty, as the truncated
subtraction shows), and on the empty array it is exactly 0, because reading
past the end yields no value and the strict comparison is false. -/
theorem descend_loop_terminates (buf : List ℕ) :
    descendAux (acfList ((trim buf).map centered)) ≤ (trim buf).length - 1 ∧
    descendAux ([] : List ℚ) = 0 := by
  constructor
  · have h := descendAux_le (acfList ((trim buf).map centered))
    rwa [acfList_length, List.length_map] at h
  · rfl

/-- C5 counterexample: on the buffer [255,255,255,255] no sample of the last
half has centered magnitude below 0.2, yet the working buffer does NOT keep
the full length: the default end index is `length - 1 = 3`, so the last
sample is cut and the trimmed buffer has length 3, not 4. -/
theorem trim_cuts_last_sample :
    (∀ i ∈ List.range' 1 (halfLen ([255, 255, 255, 255] : List ℕ).length - 1),
        ¬ |centered (([255, 255, 255, 255] : List ℕ).getD (4 - i) 0)| < 1/5) ∧
    r2 [255, 255, 255, 255] = 3 ∧
    trim [255, 255, 255, 255] = [255, 255, 255] ∧
    (trim [255, 255, 255, 255]).length ≠ ([255, 255, 255, 255] : List ℕ).length := by
  have ht : trim [255, 255, 255, 255] = [255, 255, 255] := by
    norm_num [trim, r1, r2, halfLen, List.find?, List.getD, List.range', List.range_succ,
      centered, decide_c255, List.take, List.tail, Int.toNat]
  refine ⟨?_, ?_, ht, by rw [ht]; decide⟩
  · intro i hi
    have hi2 : i ∈ [1] := hi
    rw [List.mem_singleton] at hi2
    subst hi2
    show ¬ |centered 255| < 1/5
    rw [show centered 255 = (127:ℚ)/128 from by norm_num [centered],
      abs_of_nonneg (by norm_num : (0:ℚ) ≤ 127/128)]
    norm_num
  · norm_num [r2, halfLen, List.find?, List.getD, List.range', centered, decide_c255]

/-- C5 amended: in the edge trim of estimate, if no sample scanned in the
first half has centered magnitude below 0.2 the start stays 0; if none is
found scanning the last half from the end, the end index defaults to
`buf.length - 1` (not the full length), so exactly the last sample is cut
from that side. -/
theorem trim_no_crossing_defaults (buf : List ℕ)
    (h1 : ∀ i ∈ List.range (halfLen buf.length), ¬ |centered (buf.getD i 0)| < 1/5)
    (h2 : ∀ i ∈ List.range' 1 (halfLen buf.length - 1),
        ¬ |centered (buf.getD (buf.length - i) 0)| < 1/5) :
    r1 buf = 0 ∧ r2 buf = (buf.length : ℤ) - 1 ∧
    trim buf = buf.take (buf.length - 1) := by
  have e1 : (List.range (halfLen buf.length)).find?
      (fun i => decide (|centered (buf.getD i 0)| < 1/5)) = none := by
    rw [List.find?_eq_none]
    intro i hi
    simpa using h1 i hi
  have e2 : (List.range' 1 (halfLen buf.length - 1)).find?
      (fun i => decide (|centered (buf.getD (buf.length - i) 0)| < 1/5)) = none := by
    rw [List.find?_eq_none]
    intro i hi
    simpa using h2 i hi
  have hr1 : r1 buf = 0 := by
    unfold r1
    rw [e1]
    rfl
  have hr2 : r2 buf = (buf.length : ℤ) - 1 := by
    unfold r2
    rw [e2]
  refine ⟨hr1, hr2, ?_⟩
  unfold trim
  rw [hr1, hr2, List.drop_zero,
    show (((buf.length : ℤ) - 1).toNat = buf.length - 1) from by omega]

/-- C5 witness: the amended statement evaluated on the all-loud buffer. -/
theorem trim_no_crossing_defaults_witness :
    (∀ i ∈ List.range (halfLen ([255, 255, 255, 255] : List ℕ).length),
        ¬ |centered (([255, 255, 255, 255] : List ℕ).getD i 0)| < 1/5) ∧
    (r1 [255, 255, 255, 255] = 0 ∧
      r2 [255, 255, 255, 255] = (([255, 255, 255, 255] : List ℕ).length : ℤ) - 1 ∧
      trim [255, 255, 255, 255] =
        ([255, 255, 255, 255] : List ℕ).take (([255, 255, 255, 255] : List ℕ).length - 1)) := by
  have h1 : ∀ i ∈ List.range (halfLen ([255, 255, 255, 255] : List ℕ).length),
      ¬ |centered (([255, 255, 255, 255] : List ℕ).getD i 0)| < 1/5 := by
    intro i hi
    have hi2 : i < 2 := List.mem_range.mp hi
    have he : centered (([255, 255, 255, 255] : List ℕ).getD i 0) = 127/128 := by
      interval_cases i <;> norm_num [centered, List.getD]
    rw [he, abs_of_nonneg (by norm_num : (0:ℚ) ≤ 127/128)]
    norm_num
  have h2 : ∀ i ∈ List.range' 1 (halfLen ([255, 255, 255, 255] : List ℕ).length - 1),
      ¬ |centered (([255, 255, 255, 255] : List ℕ).getD
          (([255, 255, 255, 255] : List ℕ).length - i) 0)| < 1/5 := by
    intro i hi
    have hi2 : i ∈ [1] := hi
    rw [List.mem_singleton] at hi2
    subst hi2
    show ¬ |centered 255| < 1/5
    rw [show centered 255 = (127:ℚ)/128 from by norm_num [centered],
      abs_of_nonneg (by norm_num : (0:ℚ) ≤ 127/128)]
    norm_num
  exact ⟨h1, trim_no_crossing_defaults [255, 255, 255, 255] h1 h2⟩

/-- C7 counterexample: the empty buffer vacuously has all samples equal to
128 and the gate 0 is nonnegative, but estimate does not return the -1
sentinel there: the decibel value is NaN, `NaN < gate` is false, the gate
does not fire, and the body returns `sampleRate / (-1) = -44100`. -/
theorem estimate_empty_buffer_not_sentinel :
    (∀ b ∈ ([] : List ℕ), b = 128) ∧ ((0:ℝ) ≤ 0) ∧
    estimateRel [] 44100 0 (.fin (-44100)) ∧ JsNum.fin (-44100) ≠ .fin (-1) :=
  ⟨fun b hb => absurd hb (List.not_mem_nil b), le_refl 0,
   ⟨fun hg => absurd rfl hg.1, fun _ => estimateBody_empty.symm⟩,
   by simp only [ne_eq, JsNum.fin.injEq]; norm_num⟩

/-- C7 amended: for every NONEMPTY buffer whose samples are all 128 and any
gate at least 0, the mean square is 0, the decibel level is -Infinity, the
gate fires and estimate returns the -1 sentinel. -/
theorem silence_below_gate (buf : List ℕ) (sr : ℚ) (gate : ℝ) (res : JsNum)
    (hne : buf ≠ []) (hall : ∀ b ∈ buf, b = 128) (hg : (0:ℝ) ≤ gate)
    (hrel : estimateRel buf sr gate res) : res = .fin (-1) :=
  hrel.1 ⟨hne, Or.inl (msq_all_silence buf hall)⟩

/-- C7 witness: the amended statement evaluated on the buffer [128]. -/
theorem silence_below_gate_witness :
    (([128] : List ℕ) ≠ [] ∧ (∀ b ∈ ([128] : List ℕ), b = 128) ∧ ((0:ℝ) ≤ 30)) ∧
    JsNum.fin (-1) = .fin (-1) :=
  ⟨⟨by decide, by decide, by norm_num⟩,
   silence_below_gate [128] 44100 30 (.fin (-1)) (by decide) (by decide) (by norm_num)
     ⟨fun _ => rfl,
      fun hng => absurd ⟨by decide, Or.inl (by norm_num [msq, sumSq, centered])⟩ hng⟩⟩

/-- C4: a buffer that passes the loudness gate but trims to an all-silent
working buffer (all-zero variance, so the autocorrelation array is all
zeros) makes autoCorrelate pick `mp = 0` and return `sampleRate / 0`, which
is +Infinity in JS, not the "no pitch detected" sentinel -1.  The claim
describes the intended hardening; the code diverges from it. -/
theorem estimate_degenerate_div_zero :
    ¬ gated [255, 128, 128, 128] 30 ∧
    trim [255, 128, 128, 128] = [128, 128] ∧
    msq (trim [255, 128, 128, 128]) = 0 ∧
    estimateBody [255, 128, 128, 128] 44100 = .posInf ∧
    estimateRel [255, 128, 128, 128] 44100 30 .posInf ∧
    JsNum.posInf ≠ .fin (-1) :=
  ⟨not_gated_loud, trim_loud_eval,
   by rw [trim_loud_eval]; norm_num [msq, sumSq, centered], estimateBody_loud,
   ⟨fun hg => absurd hg not_gated_loud, fun _ => estimateBody_loud.symm⟩, by decide⟩

lemma trim_mem {buf : List ℕ} {b : ℕ} (hb : b ∈ trim buf) : b ∈ buf :=
  List.mem_of_mem_take (List.mem_of_mem_drop hb)

lemma xs_getD_mem (buf : List ℕ) (hbytes : ∀ b ∈ buf, b < 256) (j : ℕ)
    (hj : j < ((trim buf).map centered).length) :
    -1 ≤ ((trim buf).map centered).getD j 0 ∧
      ((trim buf).map centered).getD j 0 ≤ 127/128 := by
  rw [List.getD_eq_getElem?_getD, List.getElem?_eq_getElem hj, Option.getD_some]
  have hmem : ((trim buf).map centered)[j] ∈ (trim buf).map centered :=
    List.getElem_mem hj
  obtain ⟨b, hb, he⟩ := List.mem_map.mp hmem
  rw [← he]
  exact centered_mem b (hbytes b (trim_mem hb))

/-- C2: whenever the decibel level `20*log10(rms) + 100` of the (nonempty)
buffer is below the gate — including the all-silent case, where the JS
value is -Infinity and compares below every real gate — autoCorrelate
returns the -1 sentinel without reaching the trimming or autocorrelation
stages. -/
theorem gate_rejects_quiet_buffer (buf : List ℕ) (sr : ℚ) (gate : ℝ) (res : JsNum)
    (hne : buf ≠ []) (hdb : msq buf = 0 ∨ db buf < gate)
    (hrel : estimateRel buf sr gate res) : res = .fin (-1) :=
  hrel.1 ⟨hne, hdb⟩

/-- C2 witness: a silent two-sample buffer against gate 30. -/
theorem gate_rejects_quiet_buffer_witness :
    (([128, 128] : List ℕ) ≠ [] ∧ msq [128, 128] = 0) ∧ JsNum.fin (-1) = .fin (-1) := by
  have hmsq : msq [128, 128] = 0 := by norm_num [msq, sumSq, centered]
  refine ⟨⟨by decide, hmsq⟩, ?_⟩
  exact gate_rejects_quiet_buffer [128, 128] 44100 30 (.fin (-1)) (by decide) (Or.inl hmsq)
    ⟨fun _ => rfl, fun hng => absurd ⟨by decide, Or.inl hmsq⟩ hng⟩

/-- C1: on every byte buffer that passes the loudness gate and trims to a
nonempty working buffer, autoCorrelate returns `sampleRate / mp` (JS
division, embodied by jsDiv) where, writing `c` for the autocorrelation of
the centered samples and `d` for the stopping index of the descent loop,
`d` is the least index at which `c` stops strictly decreasing and `mp` is
the earliest lag in `[d, n)` attaining the maximum of `c` there (strict
comparison, first occurrence kept). -/
theorem estimate_peak_formula (buf : List ℕ) (sr : ℚ) (gate : ℝ) (res : JsNum)
    (hbytes : ∀ b ∈ buf, b < 256)
    (hrel : estimateRel buf sr gate res) (hng : ¬ gated buf gate)
    (hlen : 1 ≤ (trim buf).length) :
    ∃ mp d : ℕ,
      d = descendAux (acfList ((trim buf).map centered)) ∧
      res = jsDiv sr (mp : ℤ) ∧
      (∀ k, k < d → k + 1 < (trim buf).length ∧
          acf ((trim buf).map centered) (k + 1) < acf ((trim buf).map centered) k) ∧
      ¬ (d + 1 < (trim buf).length ∧
          acf ((trim buf).map centered) (d + 1) < acf ((trim buf).map centered) d) ∧
      d ≤ mp ∧ mp < (trim buf).length ∧
      (∀ i, d ≤ i → i < (trim buf).length →
          acf ((trim buf).map centered) i ≤ acf ((trim buf).map centered) mp) ∧
      (∀ i, d ≤ i → i < mp →
          acf ((trim buf).map centered) i < acf ((trim buf).map centered) mp) := by
  set xs := (trim buf).map centered with hxs
  set cl := acfList xs with hcl
  set n := (trim buf).length with hn
  have hxslen : xs.length = n := by rw [hxs, List.length_map]
  have hcllen : cl.length = n := by rw [hcl, acfList_length, hxslen]
  set d := descendAux cl with hd
  have hdle : d ≤ n - 1 := by
    have h := descendAux_le cl
    omega
  have hblast : -1 < cl.getD (n - 1) 0 := by
    rw [hcl, acfList_getD xs (n - 1) (by omega)]
    rw [show n - 1 = xs.length - 1 from by omega]
    rw [acf_last xs (by omega)]
    have h0 := xs_getD_mem buf hbytes 0 (by rw [← hxs]; omega)
    have h1 := xs_getD_mem buf hbytes (xs.length - 1) (by rw [← hxs]; omega)
    exact mul_gt_neg_one h0.1 h0.2 h1.1 h1.2
  obtain ⟨j, hj1, hj2, hj3, _hj4, hj5, hj6⟩ := peakFold_max cl (n - d) d (-1) (-1)
    ⟨n - 1, hdle, by omega, hblast⟩
  have hres : res = estimateBody buf sr := hrel.2 hng
  have hbody : estimateBody buf sr =
      jsDiv sr (((List.range' d (xs.length - d)).foldl (peakStep cl) (-1, -1)).2) := rfl
  have hfold : ((List.range' d (xs.length - d)).foldl (peakStep cl) (-1, -1)).2 = (j : ℤ) := by
    rw [hxslen, hj3]
  have hgetD : ∀ i, i < n → cl.getD i 0 = acf xs i := by
    intro i hi
    rw [hcl, acfList_getD xs i (by omega)]
  refine ⟨j, d, rfl, ?_, ?_, ?_, hj1, by omega, ?_, ?_⟩
  · rw [hres, hbody, hfold]
  · intro k hk
    have h := descendAux_decreasing cl k hk
    refine ⟨by omega, ?_⟩
    rw [← hgetD (k + 1) (by omega), ← hgetD k (by omega)]
    exact h.2
  · rintro ⟨ha, hb⟩
    apply descendAux_stop cl
    refine ⟨by omega, ?_⟩
    rw [hgetD (d + 1) (by omega), hgetD d (by omega)]
    exact hb
  · intro i hi1 hi2
    have h := hj5 i hi1 (by omega)
    rw [← hgetD i (by omega), ← hgetD j (by omega)]
    exact h
  · intro i hi1 hi2
    have h := hj6 i hi1 hi2
    rw [← hgetD i (by omega), ← hgetD j (by omega)]
    exact h

/-- C1 witness: the loud buffer [255,128,128,128] passes gate 30, trims to
[128,128], and the peak formula holds with concrete result +Infinity
(`mp = 0` there, so the JS division yields Infinity). -/
theorem estimate_peak_formula_witness :
    ((∀ b ∈ ([255, 128, 128, 128] : List ℕ), b < 256) ∧
      ¬ gated [255, 128, 128, 128] 30 ∧ 1 ≤ (trim [255, 128, 128, 128]).length) ∧
    (∃ mp d : ℕ,
      d = descendAux (acfList ((trim [255, 128, 128, 128]).map centered)) ∧
      JsNum.posInf = jsDiv 44100 (mp : ℤ) ∧
      (∀ k, k < d → k + 1 < (trim [255, 128, 128, 128]).length ∧
          acf ((trim [255, 128, 128, 128]).map centered) (k + 1) <
            acf ((trim [255, 128, 128, 128]).map centered) k) ∧
      ¬ (d + 1 < (trim [255, 128, 128, 128]).length ∧
          acf ((trim [255, 128, 128, 128]).map centered) (d + 1) <
            acf ((trim [255, 128, 128, 128]).map centered) d) ∧
      d ≤ mp ∧ mp < (trim [255, 128, 128, 128]).length ∧
      (∀ i, d ≤ i → i < (trim [255, 128, 128, 128]).length →
          acf ((trim [255, 128, 128, 128]).map centered) i ≤
            acf ((trim [255, 128, 128, 128]).map centered) mp) ∧
      (∀ i, d ≤ i → i < mp →
          acf ((trim [255, 128, 128, 128]).map centered) i <
            acf ((trim [255, 128, 128, 128]).map centered) mp)) :=
  ⟨⟨by decide, not_gated_loud, by rw [trim_loud_eval]; decide⟩,
   estimate_peak_formula [255, 128, 128, 128] 44100 30 .posInf (by decide)
     ⟨fun hg => absurd hg not_gated_loud, fun _ => estimateBody_loud.symm⟩
     not_gated_loud (by rw [trim_loud_eval]; decide)⟩

/- =================== NoteMapper helper lemmas =================== -/

lemma getNoteInfo_sentinel (f : ℝ) (h : f = 0 ∨ f < 20) :
    getNoteInfo f = { note := "--", solfege := "--", cents := 0 } := by
  unfold getNoteInfo
  rw [if_pos h]

lemma getNoteInfo_cents (f : ℝ) (h : ¬ (f = 0 ∨ f < 20)) :
    (getNoteInfo f).cents = (noteN f - (noteMidi f : ℝ)) * 100 := by
  unfold getNoteInfo
  rw [if_neg h]

lemma noteN_440 : noteN 440 = 69 := by
  unfold noteN
  rw [show (440:ℝ)/440 = 1 from by norm_num, Real.logb_one]
  norm_num

/-- C3 counterexample: at the frequency 440 * 2^(-1/24) the continuous
semitone number is exactly 68.5; Math.round rounds the half up to 69, so
the cents field is exactly -50, which the claimed range (-50, 50] excludes
("cents = -50 is never returned" is false). -/
theorem cents_attains_minus_fifty :
    (getNoteInfo (440 * (2:ℝ) ^ (-(1/24) : ℝ))).cents = -50 ∧
    ¬ (-50 < (getNoteInfo (440 * (2:ℝ) ^ (-(1/24) : ℝ))).cents) := by
  have hge : (1:ℝ)/2 ≤ (2:ℝ) ^ (-(1/24) : ℝ) := by
    rw [show (1:ℝ)/2 = (2:ℝ) ^ (-1 : ℝ) from by rw [Real.rpow_neg_one]; norm_num]
    exact (Real.rpow_le_rpow_left_iff (by norm_num : (1:ℝ) < 2)).mpr (by norm_num)
  have hguard : ¬ (440 * (2:ℝ) ^ (-(1/24) : ℝ) = 0 ∨ 440 * (2:ℝ) ^ (-(1/24) : ℝ) < 20) := by
    push_neg
    constructor <;> nlinarith [hge]
  have hn : noteN (440 * (2:ℝ) ^ (-(1/24) : ℝ)) = 137/2 := by
    unfold noteN
    rw [show (440 * (2:ℝ) ^ (-(1/24) : ℝ)) / 440 = (2:ℝ) ^ (-(1/24) : ℝ) from by ring,
      Real.logb_rpow (by norm_num) (by norm_num)]
    norm_num
  have hround : noteMidi (440 * (2:ℝ) ^ (-(1/24) : ℝ)) = 69 := by
    unfold noteMidi
    rw [hn, round_eq, show (137:ℝ)/2 + 1/2 = ((69:ℤ):ℝ) from by norm_num, Int.floor_intCast]
  have hc : (getNoteInfo (440 * (2:ℝ) ^ (-(1/24) : ℝ))).cents = -50 := by
    rw [getNoteInfo_cents _ hguard, hn, hround]
    norm_num
  exact ⟨hc, by rw [hc]; norm_num⟩

/-- C3 amended: for every accepted frequency (f at least 20 Hz) the cents
field equals 100 * (n - round n) with n = 12*log2(f/440) + 69, and it lies
in the half-open range [-50, 50): JS Math.round sends halves up, so the
deviation n - round(n) lies in [-1/2, 1/2). -/
theorem cents_formula_range (f : ℝ) (hf : 20 ≤ f) :
    (getNoteInfo f).cents = 100 * (noteN f - round (noteN f)) ∧
    -50 ≤ (getNoteInfo f).cents ∧ (getNoteInfo f).cents < 50 := by
  have hguard : ¬ (f = 0 ∨ f < 20) := by
    push_neg
    constructor <;> linarith
  have hc := getNoteInfo_cents f hguard
  have hmid : ((noteMidi f : ℤ) : ℝ) = ((⌊noteN f + 1/2⌋ : ℤ) : ℝ) := by
    rw [noteMidi, round_eq]
  have hfl := Int.floor_le (noteN f + 1/2)
  have hfu := Int.lt_floor_add_one (noteN f + 1/2)
  refine ⟨?_, ?_, ?_⟩
  · rw [hc, noteMidi, round_eq]
    ring
  · rw [hc, hmid]
    linarith
  · rw [hc, hmid]
    linarith

/-- C3 witness: the amended statement at the reference frequency 440 Hz. -/
theorem cents_formula_range_witness :
    ((20:ℝ) ≤ 440) ∧
    ((getNoteInfo 440).cents = 100 * (noteN 440 - round (noteN 440)) ∧
      -50 ≤ (getNoteInfo 440).cents ∧ (getNoteInfo 440).cents < 50) :=
  ⟨by norm_num, cents_formula_range 440 (by norm_num)⟩

/-- C6 counterexample: at +Infinity the guard `!freq || freq < 20` is false
(+Infinity is truthy and not below 20), so getNoteInfo does not take the
sentinel path; the body computes n = midi = +Infinity and the cents field
becomes (Infinity - Infinity) * 100 = NaN, not the sentinel value 0. -/
theorem getNoteInfo_posInf_garbage :
    getNoteInfoCentsJs .posInf = .nan ∧ JsR.nan ≠ .fin 0 := by
  constructor
  · unfold getNoteInfoCentsJs
    rw [if_neg (by simp [jsFalsy, jsLt20])]
    simp only [jsDiv440, jsLog2, jsLin, jsRound, jsSub, jsMul100]
  · intro h
    exact JsR.noConfusion h

/-- C6 amended: zero, negative, below-20 and the non-finite inputs NaN and
-Infinity all produce the sentinel (NaN because `!NaN` is truthy,
-Infinity because it compares below 20); +Infinity alone escapes the guard
and yields a garbage result (see the counterexample). -/
theorem getNoteInfo_guard (x : ℝ) (hx : x = 0 ∨ x < 20) :
    getNoteInfo x = { note := "--", solfege := "--", cents := 0 } ∧
    getNoteInfoCentsJs (.fin x) = .fin 0 ∧
    getNoteInfoCentsJs .nan = .fin 0 ∧
    getNoteInfoCentsJs .negInf = .fin 0 := by
  refine ⟨getNoteInfo_sentinel x hx, ?_, ?_, ?_⟩
  · unfold getNoteInfoCentsJs
    rw [if_pos (show jsFalsy (.fin x) ∨ jsLt20 (.fin x) from hx)]
  · unfold getNoteInfoCentsJs
    rw [if_pos (Or.inl (show jsFalsy .nan from trivial))]
  · unfold getNoteInfoCentsJs
    rw [if_pos (Or.inr (show jsLt20 .negInf from trivial))]

/-- C6 witness: the amended statement at the negative frequency -5. -/
theorem getNoteInfo_guard_witness :
    ((-5:ℝ) = 0 ∨ (-5:ℝ) < 20) ∧
    (getNoteInfo (-5) = { note := "--", solfege := "--", cents := 0 } ∧
      getNoteInfoCentsJs (.fin (-5)) = .fin 0 ∧
      getNoteInfoCentsJs .nan = .fin 0 ∧
      getNoteInfoCentsJs .negInf = .fin 0) :=
  ⟨Or.inr (by norm_num), getNoteInfo_guard (-5) (Or.inr (by norm_num))⟩

lemma noteN_double (f : ℝ) (hf : 20 ≤ f) : noteN (2 * f) = noteN f + 12 := by
  unfold noteN
  have hne : f / 440 ≠ 0 := (div_pos (by linarith) (by norm_num)).ne'
  rw [show (2 * f) / 440 = 2 * (f / 440) from by ring,
    Real.logb_mul (by norm_num) hne, Real.logb_self_eq_one (by norm_num)]
  ring

/-- C8: getNoteInfo is monotonic in octave: doubling an accepted frequency
adds exactly 12 to the midi number; adding 12 to a nonnegative midi leaves
`midi % 12` (hence the note-letter and solfege lookups) unchanged and
increases the octave `floor(midi/12) - 1` by exactly 1. -/
theorem octave_shift (f : ℝ) (hf : 20 ≤ f) (m : ℤ) (hm : 0 ≤ m) :
    noteMidi (2 * f) = noteMidi f + 12 ∧
    noteIdx (m + 12) = noteIdx m ∧
    octaveOf (m + 12) = octaveOf m + 1 ∧
    noteNames.get? (noteIdx (m + 12)).toNat = noteNames.get? (noteIdx m).toNat ∧
    solfegeNames.get? (noteIdx (m + 12)).toNat = solfegeNames.get? (noteIdx m).toNat := by
  have hidx : noteIdx (m + 12) = noteIdx m := by
    unfold noteIdx
    rw [Int.tmod_eq_emod (by omega) (by norm_num), Int.tmod_eq_emod hm (by norm_num)]
    omega
  have hoct : octaveOf (m + 12) = octaveOf m + 1 := by
    unfold octaveOf
    rw [Int.fdiv_eq_ediv _ (by norm_num), Int.fdiv_eq_ediv _ (by norm_num)]
    omega
  refine ⟨?_, hidx, hoct, by rw [hidx], by rw [hidx]⟩
  unfold noteMidi
  rw [noteN_double f hf, show (12:ℝ) = ((12:ℤ):ℝ) from by norm_num, round_add_int]

/-- C8 witness: the octave-shift statement at 440 Hz and midi 69. -/
theorem octave_shift_witness :
    ((20:ℝ) ≤ 440 ∧ (0:ℤ) ≤ 69) ∧
    (noteMidi (2 * 440) = noteMidi 440 + 12 ∧
      noteIdx (69 + 12) = noteIdx 69 ∧
      octaveOf (69 + 12) = octaveOf 69 + 1 ∧
      noteNames.get? (noteIdx (69 + 12)).toNat = noteNames.get? (noteIdx 69).toNat ∧
      solfegeNames.get? (noteIdx (69 + 12)).toNat = solfegeNames.get? (noteIdx 69).toNat) :=
  ⟨⟨by norm_num, by norm_num⟩, octave_shift 440 (by norm_num) 69 (by norm_num)⟩

lemma logb2_22_le : Real.logb 2 22 ≤ 109/24 := by
  have h1 : Real.logb 2 ((22:ℝ)^(24:ℕ)) ≤ Real.logb 2 ((2:ℝ)^(109:ℕ)) := by
    apply Real.logb_le_logb_of_le (by norm_num) (by positivity)
    norm_num
  rw [Real.logb_pow, Real.logb_pow, Real.logb_self_eq_one (by norm_num)] at h1
  push_cast at h1
  linarith

lemma noteN_lower (f : ℝ) (hf : 20 ≤ f) : 29/2 ≤ noteN f := by
  unfold noteN
  have h0 : Real.logb 2 ((1:ℝ)/22) ≤ Real.logb 2 (f / 440) := by
    apply Real.logb_le_logb_of_le (by norm_num) (by norm_num)
    rw [div_le_div_iff₀ (by norm_num) (by norm_num)]
    linarith
  have h1 : Real.logb 2 ((1:ℝ)/22) = - Real.logb 2 22 := by
    rw [show (1:ℝ)/22 = (22:ℝ)⁻¹ from by norm_num, Real.logb_inv]
  have h2 := logb2_22_le
  nlinarith [h0, h1, h2]

lemma noteMidi_ge (f : ℝ) (hf : 20 ≤ f) : 15 ≤ noteMidi f := by
  unfold noteMidi
  rw [round_eq, Int.le_floor]
  have := noteN_lower f hf
  push_cast
  linarith

/-- C9: for every accepted frequency (f at least 20 Hz) the rounded midi
number is at least 15, so `midi % 12` (JS truncating remainder) is in
[0, 11] and both fixed-table lookups are in bounds: getNoteInfo never
indexes out of range on its accepted domain. -/
theorem getNoteInfo_lookups_in_bounds (f : ℝ) (hf : 20 ≤ f) :
    15 ≤ noteMidi f ∧
    0 ≤ noteIdx (noteMidi f) ∧ noteIdx (noteMidi f) < 12 ∧
    (noteNames.get? (noteIdx (noteMidi f)).toNat).isSome = true ∧
    (solfegeNames.get? (noteIdx (noteMidi f)).toNat).isSome = true := by
  have hmid := noteMidi_ge f hf
  have h0 : 0 ≤ noteIdx (noteMidi f) := Int.tmod_nonneg _ (by omega)
  have h12 : noteIdx (noteMidi f) < 12 := Int.tmod_lt_of_pos _ (by norm_num)
  have hlt1 : (noteIdx (noteMidi f)).toNat < noteNames.length := by
    rw [show noteNames.length = 12 from rfl]
    omega
  have hlt2 : (noteIdx (noteMidi f)).toNat < solfegeNames.length := by
    rw [show solfegeNames.length = 12 from rfl]
    omega
  refine ⟨hmid, h0, h12, ?_, ?_⟩
  · rw [List.get?_eq_getElem?, List.getElem?_eq_getElem hlt1]
    rfl
  · rw [List.get?_eq_getElem?, List.getElem?_eq_getElem hlt2]
    rfl

/-- C9 witness: the bounds statement at 440 Hz. -/
theorem getNoteInfo_lookups_in_bounds_witness :
    ((20:ℝ) ≤ 440) ∧
    (15 ≤ noteMidi 440 ∧
      0 ≤ noteIdx (noteMidi 440) ∧ noteIdx (noteMidi 440) < 12 ∧
      (noteNames.get? (noteIdx (noteMidi 440)).toNat).isSome = true ∧
      (solfegeNames.get? (noteIdx (noteMidi 440)).toNat).isSome = true) :=
  ⟨by norm_num, getNoteInfo_lookups_in_bounds 440 (by norm_num)⟩
